import Mathlib

/-!
Verification of the zod-to-protobuf schema compiler (src/index.ts).

The development shallowly embeds the compiler: Zod schema nodes become the
mutual inductive family ZodT / ZFields / ZItems (ordered field and item
sequences of an object or tuple), the two insertion-ordered JS Map registries
become association lists threaded through the traversal in a St record, and
exceptions become Except String results.  Every definition mirrors the
corresponding source function; rendered text is produced exactly as in the
source, including whitespace.  JS braces inside produced text are written with
the escapes \x7b and \x7d.
-/

/-- Field descriptor produced by the traversal: the source interface
ProtobufField with types : Array of string-or-null and a field name. -/
structure ProtobufField where
  types : List (Option String)
  name : String
deriving DecidableEq

/-- The two registries (JS Map of message name to rendered body lines, and of
enum name to rendered enum block) that the source mutates during traversal. -/
structure St where
  messages : List (String × List String)
  enums : List (String × List String)
deriving DecidableEq

mutual
/-- Zod schema nodes, one constructor per node kind the compiler dispatches
on; zUnknown carries the constructor name of any unrecognized node. -/
inductive ZodT where
  | zString
  | zBoolean
  | zDate
  | zBigInt
  | zNumber (isInt : Bool)
  | zEnum (options : List String)
  | zObject (fields : ZFields)
  | zArray (element : ZodT)
  | zSet (element : ZodT)
  | zTuple (items : ZItems)
  | zMap (keyType : ZodT) (valueType : ZodT)
  | zOptional (inner : ZodT)
  | zNullable (inner : ZodT)
  | zUnknown (name : String)
/-- Ordered key/value members of an object schema shape. -/
inductive ZFields where
  | nil
  | cons (key : String) (value : ZodT) (rest : ZFields)
/-- Ordered elements of a tuple schema. -/
inductive ZItems where
  | nil
  | cons (item : ZodT) (rest : ZItems)
end

/-- JS Map.set on an insertion-ordered association list: an existing key is
overwritten in place (keeping its original position); a new key is appended. -/
def mapSet (m : List (String × α)) (k : String) (v : α) : List (String × α) :=
  if m.any (fun e => e.1 = k) then m.map (fun e => if e.1 = k then (k, v) else e)
  else m ++ [(k, v)]

/-- First-match lookup in a registry association list. -/
def regGet (m : List (String × α)) (k : String) : Option α :=
  match m with
  | [] => none
  | e :: rest => if e.1 = k then some e.2 else regGet rest k

/-- Suffix test on the underlying character lists (JS String endsWith). -/
def endsWithStr (s post : String) : Bool :=
  post.data.isSuffixOf s.data

/-- Modelled from the spec: the external inflection library's singularize,
described as inflecting a plural English noun to its singular form (for
example tags becomes tag; an already singular word is unchanged).  Modelled
as dropping one trailing letter s, except for words ending in a double s. -/
def singularize (s : String) : String :=
  if s.length ≥ 2 ∧ endsWithStr s "s" = true ∧ endsWithStr s "ss" = false then s.dropRight 1 else s

/-- Replace the first occurrence of pat in a character list by repl, as the
JS String.prototype.replace with a string pattern does. -/
def replaceFirstList : List Char → List Char → List Char → List Char
  | s, pat, repl =>
    if pat.isPrefixOf s then repl ++ s.drop pat.length
    else match s with
      | [] => []
      | c :: rest => c :: replaceFirstList rest pat repl

/-- Replace the first occurrence of pat in s by repl (JS String.replace). -/
def replaceFirst (s pat repl : String) : String :=
  ⟨replaceFirstList s.data pat.data repl.data⟩

/-- Uppercase the first character of a string, as the source does with
charAt(0).toUpperCase() + slice(1) per dot-separated part. -/
def capitalize (s : String) : String :=
  match s.data with
  | [] => ""
  | c :: rest => ⟨Char.toUpper c :: rest⟩

/-- Splitting of a character list at every dot, the JS split of the key on
the string containing one dot (an empty input yields one empty part). -/
def splitDotAux : List Char → List Char → List String
  | [], acc => [⟨acc.reverse⟩]
  | c :: rest, acc =>
    if c = '.' then (⟨acc.reverse⟩ : String) :: splitDotAux rest []
    else splitDotAux rest (c :: acc)

/-- Split a string on dots. -/
def splitDot (s : String) : List String :=
  splitDotAux s.data []

/-- Source toPascalCase: split the key on dots, capitalize each part, join. -/
def toPascalCase (value : String) : String :=
  String.join ((splitDot value).map capitalize)

/-- Source getNumberTypeName: an integer-checked ZodNumber maps to int32,
any other number to double. -/
def getNumberTypeName (isInt : Bool) : String :=
  if isInt then "int32" else "double"

/-- Source protobufFieldToType: the types entries filtered by JS truthiness
(dropping nulls and empty strings) joined with single spaces. -/
def protobufFieldToType (field : ProtobufField) : String :=
  String.intercalate " " ((field.types.filterMap id).filter (fun s => s ≠ ""))

/-- The unfiltered Array.join used by the tuple renderer: a null type entry
contributes an empty string, so a leading null yields a leading space. -/
def joinAllTypes (field : ProtobufField) : String :=
  String.intercalate " " (field.types.map (fun o => o.getD ""))

/-- The map field type string built in traverseMap from the single key and
value descriptors. -/
def mapTypeString (kf vf : ProtobufField) : String :=
  "map<" ++ protobufFieldToType kf ++ ", " ++ protobufFieldToType vf ++ ">"

/-- Rendering of a descriptor list into numbered field lines, the source's
fields.map of field and index to a line numbered index + 1, with the counter
made explicit (call with n = 1). -/
def renderFieldLines (n : Nat) : List ProtobufField → List String
  | [] => []
  | f :: fs =>
    (protobufFieldToType f ++ " " ++ f.name ++ " = " ++ toString n ++ ";") :: renderFieldLines (n + 1) fs

/-- Rendering of tuple wrapper body lines: two literal leading spaces, then
the unfiltered join of the types (call with n = 1). -/
def renderTupleLines (n : Nat) : List ProtobufField → List String
  | [] => []
  | f :: fs =>
    ("  " ++ joinAllTypes f ++ " " ++ f.name ++ " = " ++ toString n ++ ";") :: renderTupleLines (n + 1) fs

/-- Enum option lines with indices assigned from 0 (call with n = 0). -/
def enumLines (n : Nat) : List String → List String
  | [] => []
  | o :: os => ("    " ++ o ++ " = " ++ toString n ++ ";") :: enumLines (n + 1) os

mutual
/-- Source traverseKey: dispatch on the schema node kind.  The bodies of the
source helpers traverseArray and traverseMap appear inline in the zArray,
zSet and zMap branches (the source passes them the whole node and they
immediately extract the element / key and value types), and the zObject
branch inlines the source's call to traverseSchema, whose object check is
statically satisfied there.  The typePre parameter is the source's
typePrefix option. -/
def traverseKey (key : String) (value : ZodT) (st : St) (isOptional isInArray : Bool)
    (typePre : String) : Except String (St × List ProtobufField) :=
  match value with
  | .zOptional inner => traverseKey key inner st true isInArray typePre
  | .zNullable inner => traverseKey key inner st true isInArray typePre
  | .zArray element => do
      let singularKey := singularize key
      let (st1, elementFields) ← traverseKey singularKey element st false true typePre
      .ok (st1, elementFields.map (fun f =>
        { f with types := some "repeated" :: f.types, name := replaceFirst f.name singularKey key }))
  | .zSet element => do
      let singularKey := singularize key
      let (st1, elementFields) ← traverseKey singularKey element st false true typePre
      .ok (st1, elementFields.map (fun f =>
        { f with types := some "repeated" :: f.types, name := replaceFirst f.name singularKey key }))
  | .zMap keyType valueType => do
      let (st1, kfs) ← traverseKey (key ++ "Key") keyType st false true typePre
      let (st2, vfs) ← traverseKey (key ++ "Value") valueType st1 false true typePre
      match kfs, vfs with
      | [kf], [vf] =>
          .ok (st2, [{ types := [some (mapTypeString kf vf)], name := key }])
      | kfs', _ =>
          if kfs'.length ≠ 1 then .error ("Unsupported type: " ++ key ++ " map key")
          else .error ("Unsupported type: " ++ key ++ " map value")
  | .zObject fields => do
      let optional : Option String := if isOptional && !isInArray then some "optional" else none
      let messageName := toPascalCase key
      let messageName := if typePre ≠ "" then typePre ++ messageName else messageName
      let (st1, nestedFields) ← traverseFields fields st typePre
      .ok ({ st1 with messages := mapSet st1.messages messageName (renderFieldLines 1 nestedFields) },
           [{ types := [optional, some messageName], name := key }])
  | .zString =>
      let optional : Option String := if isOptional && !isInArray then some "optional" else none
      .ok (st, [{ types := [optional, some "string"], name := key }])
  | .zNumber isInt =>
      let optional : Option String := if isOptional && !isInArray then some "optional" else none
      .ok (st, [{ types := [optional, some (getNumberTypeName isInt)], name := key }])
  | .zBoolean =>
      let optional : Option String := if isOptional && !isInArray then some "optional" else none
      .ok (st, [{ types := [optional, some "bool"], name := key }])
  | .zEnum options =>
      let optional : Option String := if isOptional && !isInArray then some "optional" else none
      let enumName := toPascalCase key
      let enumName := if typePre ≠ "" then typePre ++ enumName else enumName
      let enumFields := String.intercalate "\n" (enumLines 0 options)
      .ok ({ st with enums := mapSet st.enums enumName ["enum " ++ enumName ++ " \x7b\n" ++ enumFields ++ "\n\x7d"] },
           [{ types := [optional, some enumName], name := key }])
  | .zDate =>
      let optional : Option String := if isOptional && !isInArray then some "optional" else none
      .ok (st, [{ types := [optional, some "string"], name := key }])
  | .zBigInt =>
      let optional : Option String := if isOptional && !isInArray then some "optional" else none
      .ok (st, [{ types := [optional, some "int64"], name := key }])
  | .zTuple items => do
      let optional : Option String := if isOptional && !isInArray then some "optional" else none
      let (st1, tupleFields) ← traverseTupleItems key items 0 st isInArray typePre
      let tupleMessageName := toPascalCase key
      .ok ({ st1 with messages := mapSet st1.messages tupleMessageName (renderTupleLines 1 tupleFields) },
           [{ types := [optional, some tupleMessageName], name := key }])
  | .zUnknown nm => .error ("Unsupported type: " ++ nm)

/-- The flatMap over an object shape's entries performed inside the source
traverseSchema, with each member compiled non-optional and outside arrays. -/
def traverseFields (fields : ZFields) (st : St) (typePre : String) :
    Except String (St × List ProtobufField) :=
  match fields with
  | .nil => .ok (st, [])
  | .cons k v rest => do
      let (st1, fs1) ← traverseKey k v st false false typePre
      let (st2, fs2) ← traverseFields rest st1 typePre
      .ok (st2, fs1 ++ fs2)

/-- The flatMap with index over tuple items performed inside the source
tuple branch: element i is compiled under the key key_i, never optional,
with isInArray inherited from the tuple's call site. -/
def traverseTupleItems (key : String) (items : ZItems) (idx : Nat) (st : St) (isInArray : Bool)
    (typePre : String) : Except String (St × List ProtobufField) :=
  match items with
  | .nil => .ok (st, [])
  | .cons item rest => do
      let (st1, fs1) ← traverseKey (key ++ "_" ++ toString idx) item st false isInArray typePre
      let (st2, fs2) ← traverseTupleItems key rest (idx + 1) st1 isInArray typePre
      .ok (st2, fs1 ++ fs2)
end

/-- Constructor name reported by the UnsupportedTypeException, matching the
runtime class names of the zod library nodes. -/
def constructorName : ZodT → String
  | .zString => "ZodString"
  | .zBoolean => "ZodBoolean"
  | .zDate => "ZodDate"
  | .zBigInt => "ZodBigInt"
  | .zNumber _ => "ZodNumber"
  | .zEnum _ => "ZodEnum"
  | .zObject _ => "ZodObject"
  | .zArray _ => "ZodArray"
  | .zSet _ => "ZodSet"
  | .zTuple _ => "ZodTuple"
  | .zMap _ _ => "ZodMap"
  | .zOptional _ => "ZodOptional"
  | .zNullable _ => "ZodNullable"
  | .zUnknown nm => nm

/-- Source traverseSchema: the top level rejects any node that is not
literally a ZodObject (no unwrapping happens here), then flat-maps the
members and renders the numbered field lines. -/
def traverseSchema (schema : ZodT) (st : St) (typePre : String) :
    Except String (St × List String) :=
  match schema with
  | .zObject fields => do
      let (st1, fields') ← traverseFields fields st typePre
      .ok (st1, renderFieldLines 1 fields')
  | s => .error ("Unsupported type: " ++ constructorName s)

/-- Whitespace predicate of JS String.prototype.trim restricted to the
characters the compiler can produce. -/
def isWsChar (c : Char) : Bool :=
  c = ' ' ∨ c = '\t' ∨ c = '\n' ∨ c = '\r'

/-- JS String.prototype.trim: strip whitespace from both ends. -/
def jsTrim (s : String) : String :=
  ⟨((s.data.dropWhile isWsChar).reverse.dropWhile isWsChar).reverse⟩

/-- Options of zodToProtobuf with their documented defaults; typePre is the
source's typePrefix option. -/
structure ZodToProtobufOptions where
  packageName : String := "default"
  rootMessageName : String := "Message"
  typePre : String := ""
deriving DecidableEq

/-- Rendering of one registry entry into a message block: each stored body
line receives exactly four spaces of emitter indentation. -/
def renderMessage (e : String × List String) : String :=
  "message " ++ e.1 ++ " \x7b\n" ++
    String.intercalate "\n" (e.2.map (fun f => "    " ++ f)) ++ "\n\x7d"

/-- The message registry as it stands right before rendering: the traversal's
registry with the root message set under typePrefix ++ rootMessageName. -/
def finalMessages (schema : ZodT) (options : ZodToProtobufOptions) :
    Except String (List (String × List String)) := do
  let (st, fields) ← traverseSchema schema ⟨[], []⟩ options.typePre
  .ok (mapSet st.messages (options.typePre ++ options.rootMessageName) fields)

/-- Source zodToProtobuf: run the traversal with fresh registries, register
the root message last, render enums then messages separated by blank lines,
and trim the assembled document. -/
def zodToProtobuf (schema : ZodT) (options : ZodToProtobufOptions) :
    Except String String := do
  let (st, fields) ← traverseSchema schema ⟨[], []⟩ options.typePre
  let messages := mapSet st.messages (options.typePre ++ options.rootMessageName) fields
  let enumsString := st.enums.map (fun e => String.intercalate "\n" e.2)
  let messagesString := messages.map renderMessage
  let content := String.intercalate "\n\n"
    (([enumsString, messagesString].filter (fun l => l ≠ [])).map (String.intercalate "\n\n"))
  let protoDefinition := "\nsyntax = \"proto3\";\npackage " ++ options.packageName ++ ";\n\n" ++ content ++ "\n"
  .ok (jsTrim protoDefinition)

/-- Does a node carry an Optional or Nullable wrapper at its top. -/
def wrapped : ZodT → Bool
  | .zOptional _ => true
  | .zNullable _ => true
  | _ => false

/-- Number of Array/Set layers along the spine of a node, looking through
Optional/Nullable wrappers. -/
def spineRep : ZodT → Nat
  | .zOptional inner => spineRep inner
  | .zNullable inner => spineRep inner
  | .zArray element => 1 + spineRep element
  | .zSet element => 1 + spineRep element
  | _ => 0

/-- The first node on the spine that is neither a wrapper nor an Array/Set
layer: the node whose branch of traverseKey creates the field descriptor. -/
def spineBase : ZodT → ZodT
  | .zOptional inner => spineBase inner
  | .zNullable inner => spineBase inner
  | .zArray element => spineBase element
  | .zSet element => spineBase element
  | v => v

/-- Is a node a Map node. -/
def isMapKind : ZodT → Bool
  | .zMap _ _ => true
  | _ => false

/-- The optional slot a compiled field descriptor carries: the optional
token appears exactly when the optional flag is set or the node is wrapped,
the field is not an array element, and the spine holds no Array/Set layer
(an Array, Set or Map node silently swallows the optional marker). -/
def optSlot (v : ZodT) (o i : Bool) : Option String :=
  if (o || wrapped v) && !i && (spineRep v == 0) then some "optional" else none

/-- A message body whose i-th line (0-based) ends in the field number i + 1:
the statement that numbering inside the body is exactly 1, 2, 3, ... in
order. -/
def NumberedBody (body : List String) : Prop :=
  ∀ i (h : i < body.length), ∃ pre, body.get ⟨i, h⟩ = pre ++ " = " ++ toString (i + 1) ++ ";"

/-- All message bodies registered so far are numbered from 1 per scope. -/
def NumberedMessages (st : St) : Prop :=
  ∀ e ∈ st.messages, NumberedBody e.2

/-- C1: compiling the object schema with a string field name and an
integer-checked number field age under default options yields exactly the
documented proto3 text with package default and root message Message. -/
theorem zodToProtobuf_simple_object_exact :
    zodToProtobuf (.zObject (.cons "name" .zString (.cons "age" (.zNumber true) .nil))) {} =
      .ok "syntax = \"proto3\";\npackage default;\n\nmessage Message \x7b\n    string name = 1;\n    int32 age = 2;\n\x7d" := by
  rfl

/-- C10: compiling an object schema with zero fields succeeds and emits a
root message block whose body is a single empty line between the braces. -/
theorem zodToProtobuf_empty_object_exact :
    zodToProtobuf (.zObject .nil) {} =
      .ok "syntax = \"proto3\";\npackage default;\n\nmessage Message \x7b\n\n\x7d" := by
  rfl

/-- C6 counterexample: an Optional-wrapped object root is rejected with the
Unsupported Type error naming ZodOptional, contradicting the claim that such
a root compiles successfully after stripping the wrapper. -/
theorem zodToProtobuf_optional_root_rejected :
    zodToProtobuf (.zOptional (.zObject (.cons "a" .zString .nil))) {} =
      .error "Unsupported type: ZodOptional" := by
  rfl

/-- C5 counterexample: a Map whose value is an Array compiles successfully
(no Unsupported Type error) and renders the repeated modifier inside the map
type string, contradicting the claim that modifier-carrying key or value
descriptors are rejected. -/
theorem zodToProtobuf_map_array_value_accepted :
    zodToProtobuf (.zObject (.cons "metadata" (.zMap .zString (.zArray .zString)) .nil)) {} =
      .ok "syntax = \"proto3\";\npackage default;\n\nmessage Message \x7b\n    map<string, repeated string> metadata = 1;\n\x7d" := by
  rfl

/-- C8 counterexample: for a tuple field the wrapper message body lines are
emitted with seven leading spaces (four from the emitter, two baked in at
registration, one from joining a null modifier slot), not exactly four; the
second conjunct exhibits five of the leading spaces explicitly. -/
theorem zodToProtobuf_tuple_indentation_not_four :
    zodToProtobuf (.zObject (.cons "coordinates"
        (.zTuple (.cons (.zNumber false) (.cons (.zNumber false) .nil))) .nil)) {} =
      .ok "syntax = \"proto3\";\npackage default;\n\nmessage Coordinates \x7b\n       double coordinates_0 = 1;\n       double coordinates_1 = 2;\n\x7d\n\nmessage Message \x7b\n    Coordinates coordinates = 1;\n\x7d" ∧
    "       double coordinates_0 = 1;" = "     " ++ "  double coordinates_0 = 1;" := by
  exact ⟨rfl, rfl⟩

/-- C4 counterexample: when a nested object field is keyed message, its
generated name collides with the default root name, so the root's final
Map.set overwrites the earlier entry in place and the root message is the
first, not the last, entry of the registry; the last entry is Other. -/
theorem finalMessages_root_collision_not_last :
    finalMessages (.zObject (.cons "message" (.zObject (.cons "a" .zString .nil))
        (.cons "other" (.zObject (.cons "b" .zString .nil)) .nil))) {} =
      .ok [("Message", ["Message message = 1;", "Other other = 2;"]),
           ("Other", ["string b = 1;"])] ∧
    ([("Message", ["Message message = 1;", "Other other = 2;"]),
      ("Other", ["string b = 1;"])].getLast?.map (fun e => e.1)) = some "Other" ∧
    "Other" ≠ "Message" := by
  refine ⟨rfl, rfl, by decide⟩

/-- C3 counterexample: the field tags wrapped as Optional of Array of String
is wrapped in Optional and is not an array element, yet its compiled
descriptor carries no optional token (the types are exactly repeated, null,
string) and the emitted line is repeated string tags with no optional. -/
theorem traverseKey_optional_array_drops_optional :
    traverseKey "tags" (.zOptional (.zArray .zString)) ⟨[], []⟩ false false "" =
      .ok (⟨[], []⟩, [{ types := [some "repeated", none, some "string"], name := "tags" }]) ∧
    some "optional" ∉ ([some "repeated", none, some "string"] : List (Option String)) ∧
    zodToProtobuf (.zObject (.cons "tags" (.zOptional (.zArray .zString)) .nil)) {} =
      .ok "syntax = \"proto3\";\npackage default;\n\nmessage Message \x7b\n    repeated string tags = 1;\n\x7d" := by
  exact ⟨rfl, by decide, rfl⟩

/-- A registry with no entry for a key looks that key up to none. -/
theorem regGet_none_of_not_any (m : List (String × α)) (k : String)
    (h : m.any (fun e => e.1 = k) = false) : regGet m k = none := by
  induction m with
  | nil => rfl
  | cons e t ih =>
    simp only [List.any_cons, Bool.or_eq_false_iff] at h
    have hek : ¬ e.1 = k := of_decide_eq_false h.1
    simp [regGet, hek, ih h.2]

/-- Lookup through an append skips a part that does not hold the key. -/
theorem regGet_append_of_none (m l : List (String × α)) (k : String)
    (h : regGet m k = none) : regGet (m ++ l) k = regGet l k := by
  induction m with
  | nil => rfl
  | cons e t ih =>
    by_cases hek : e.1 = k
    · simp [regGet, hek] at h
    · simp only [regGet, hek, if_false, List.cons_append] at h ⊢
      exact ih h

/-- In-place overwrite puts the new value where the key already was. -/
theorem regGet_map_overwrite (m : List (String × α)) (k : String) (v : α)
    (h : m.any (fun e => e.1 = k) = true) :
    regGet (m.map (fun e => if e.1 = k then (k, v) else e)) k = some v := by
  induction m with
  | nil => simp at h
  | cons e t ih =>
    by_cases hek : e.1 = k
    · simp [regGet, hek]
    · have ht : t.any (fun x => x.1 = k) = true := by
        simp only [List.any_cons, Bool.or_eq_true] at h
        rcases h with h | h
        · exact absurd (of_decide_eq_true h) hek
        · exact h
      simp only [List.map_cons, if_neg hek]
      simp only [regGet, hek, if_false]
      exact ih ht

/-- Looking up a key right after mapSet stored it yields the stored value,
whether the key was overwritten in place or appended. -/
theorem regGet_mapSet (m : List (String × α)) (k : String) (v : α) :
    regGet (mapSet m k v) k = some v := by
  unfold mapSet
  by_cases hany : m.any (fun e => e.1 = k) = true
  · simp only [hany, if_true]
    exact regGet_map_overwrite m k v hany
  · have hf : m.any (fun e => e.1 = k) = false := Bool.eq_false_iff.mpr hany
    simp only [hf, Bool.false_eq_true, if_false]
    rw [regGet_append_of_none m _ k (regGet_none_of_not_any m k hf)]
    simp [regGet]

/-- When the key is not yet present, mapSet is a plain append. -/
theorem mapSet_not_found (m : List (String × α)) (k : String) (v : α)
    (h : m.any (fun e => e.1 = k) = false) : mapSet m k v = m ++ [(k, v)] := by
  simp [mapSet, h]

/-- Every entry of a mapSet result is either an original entry or the newly
stored pair. -/
theorem mem_mapSet (m : List (String × α)) (k : String) (v : α) (e : String × α)
    (h : e ∈ mapSet m k v) : e ∈ m ∨ e = (k, v) := by
  unfold mapSet at h
  by_cases hany : m.any (fun x => x.1 = k) = true
  · simp only [hany, if_true] at h
    rcases List.mem_map.mp h with ⟨a, ha, hae⟩
    by_cases hk : a.1 = k
    · right
      rw [if_pos hk] at hae
      exact hae.symm
    · left
      rw [if_neg hk] at hae
      exact hae ▸ ha
  · simp only [hany] at h
    rcases List.mem_append.mp h with h1 | h2
    · exact Or.inl h1
    · right
      simpa using h2

/-- The isOptional flag is irrelevant whenever the isInArray flag is set: no
branch of traverseKey can emit the optional token then, and the flag is not
consulted anywhere else. -/
theorem traverseKey_inArray_opt_irrel (value : ZodT) (key : String) (o : Bool) (st : St)
    (typePre : String) :
    traverseKey key value st o true typePre = traverseKey key value st false true typePre := by
  cases value <;> simp [traverseKey]

/-- A map type string never equals the bare optional token: it starts with
the four characters of map and an opening angle bracket. -/
theorem mapTypeString_ne_optional (kf vf : ProtobufField) :
    mapTypeString kf vf ≠ "optional" := by
  intro h
  have h2 := congrArg String.data h
  simp only [mapTypeString, String.data_append] at h2
  simp at h2

/-- Bind on a successful Except value reduces to the continuation. -/
theorem exceptBind_ok (a : α) (f : α → Except ε β) :
    (Except.ok a : Except ε α) >>= f = f a := rfl

/-- Bind on a failed Except value propagates the error. -/
theorem exceptBind_error (e : ε) (f : α → Except ε β) :
    (Except.error e : Except ε α) >>= f = Except.error e := rfl

/-- C9: Optional and Nullable wrappers on a map's key or value type are
silently dropped: the compiled result is identical to the unwrapped map
(because key and value are compiled with the in-array flag set, under which
the optional flag is irrelevant), and on success the single emitted
descriptor holds only the map type string, which is never the optional
token. -/
theorem traverseMap_drops_optional_wrappers (a b : ZodT) (key : String) (o i : Bool)
    (typePre : String) (st : St) :
    traverseKey key (.zMap (.zOptional a) b) st o i typePre =
      traverseKey key (.zMap a b) st o i typePre ∧
    traverseKey key (.zMap (.zNullable a) b) st o i typePre =
      traverseKey key (.zMap a b) st o i typePre ∧
    traverseKey key (.zMap a (.zOptional b)) st o i typePre =
      traverseKey key (.zMap a b) st o i typePre ∧
    traverseKey key (.zMap a (.zNullable b)) st o i typePre =
      traverseKey key (.zMap a b) st o i typePre ∧
    (∀ st' fs, traverseKey key (.zMap a b) st o i typePre = .ok (st', fs) →
      ∃ kf vf, fs = [{ types := [some (mapTypeString kf vf)], name := key }] ∧
        some "optional" ∉ [some (mapTypeString kf vf)]) := by
  refine ⟨?_, ?_, ?_, ?_, ?_⟩
  · simp only [traverseKey]
    rw [traverseKey_inArray_opt_irrel a (key ++ "Key") true st typePre]
  · simp only [traverseKey]
    rw [traverseKey_inArray_opt_irrel a (key ++ "Key") true st typePre]
  · simp only [traverseKey]
    cases hk : traverseKey (key ++ "Key") a st false true typePre with
    | error e => rfl
    | ok r =>
      simp only [exceptBind_ok]
      rw [traverseKey_inArray_opt_irrel b (key ++ "Value") true r.1 typePre]
  · simp only [traverseKey]
    cases hk : traverseKey (key ++ "Key") a st false true typePre with
    | error e => rfl
    | ok r =>
      simp only [exceptBind_ok]
      rw [traverseKey_inArray_opt_irrel b (key ++ "Value") true r.1 typePre]
  · intro st' fs h
    simp only [traverseKey] at h
    cases hk : traverseKey (key ++ "Key") a st false true typePre with
    | error e => rw [hk] at h; exact absurd h (by simp [exceptBind_error])
    | ok r =>
      rw [hk] at h
      simp only [exceptBind_ok] at h
      cases hv : traverseKey (key ++ "Value") b r.1 false true typePre with
      | error e => rw [hv] at h; exact absurd h (by simp [exceptBind_error])
      | ok r2 =>
        rw [hv] at h
        simp only [exceptBind_ok] at h
        match hkf : r.2, hvf : r2.2 with
        | [kf], [vf] =>
          rw [hkf, hvf] at h
          refine ⟨kf, vf, ?_, ?_⟩
          · exact (congrArg Prod.snd (Except.ok.inj h)).symm
          · intro hmem
            have : some "optional" = some (mapTypeString kf vf) := by simpa using hmem
            exact mapTypeString_ne_optional kf vf (Option.some.inj this).symm
        | [], _ => rw [hkf] at h; simp at h
        | x :: y :: rest, _ => rw [hkf] at h; simp at h
        | [kf], [] => rw [hkf, hvf] at h; simp at h
        | [kf], x :: y :: rest => rw [hkf, hvf] at h; simp at h

/-- Witness for C9 at a concrete map schema: wrapping the key type in
Optional leaves the compiled result unchanged. -/
theorem traverseMap_drops_optional_wrappers_witness :
    traverseKey "metadata" (.zMap (.zOptional .zString) .zString) ⟨[], []⟩ false false "" =
      traverseKey "metadata" (.zMap .zString .zString) ⟨[], []⟩ false false "" :=
  (traverseMap_drops_optional_wrappers .zString .zString "metadata" false false "" ⟨[], []⟩).1

/-- C5 amended: a map fails with the Unsupported Type error exactly when its
key or value field does not resolve to exactly one descriptor; a single
descriptor carrying modifiers (such as the repeated of an Array value) is
accepted and its modifiers are rendered into the map type string rather
than rejected. -/
theorem traverseMap_single_descriptor_checks (k v : ZodT) (key : String) (o i : Bool)
    (typePre : String) (st st1 st2 : St) (kfs vfs : List ProtobufField)
    (hk : traverseKey (key ++ "Key") k st false true typePre = .ok (st1, kfs))
    (hv : traverseKey (key ++ "Value") v st1 false true typePre = .ok (st2, vfs)) :
    (∀ kf vf, kfs = [kf] → vfs = [vf] →
      traverseKey key (.zMap k v) st o i typePre =
        .ok (st2, [{ types := [some (mapTypeString kf vf)], name := key }])) ∧
    (kfs.length ≠ 1 →
      traverseKey key (.zMap k v) st o i typePre =
        .error ("Unsupported type: " ++ key ++ " map key")) ∧
    (kfs.length = 1 → vfs.length ≠ 1 →
      traverseKey key (.zMap k v) st o i typePre =
        .error ("Unsupported type: " ++ key ++ " map value")) := by
  refine ⟨?_, ?_, ?_⟩
  · intro kf vf hkfs hvfs
    subst hkfs
    subst hvfs
    simp only [traverseKey, hk, exceptBind_ok, hv]
  · intro hlen
    simp only [traverseKey, hk, exceptBind_ok, hv]
    match kfs, hlen with
    | [], _ => simp
    | x :: y :: rest, _ => simp
    | [kf], hlen => exact absurd rfl hlen
  · intro hlen1 hlen2
    match kfs, hlen1 with
    | [kf], _ =>
      simp only [traverseKey, hk, exceptBind_ok, hv]
      match vfs, hlen2 with
      | [], _ => simp
      | x :: y :: rest, _ => simp
      | [vf], hlen2 => exact absurd rfl hlen2

/-- Witness for C5 amended: the map with string key and array-of-string
value compiles to the single map descriptor whose value type string carries
the repeated modifier. -/
theorem traverseMap_single_descriptor_checks_witness :
    traverseKey "metadata" (.zMap .zString (.zArray .zString)) ⟨[], []⟩ false false "" =
      .ok (⟨[], []⟩, [{ types := [some "map<string, repeated string>"], name := "metadata" }]) :=
  (traverseMap_single_descriptor_checks .zString (.zArray .zString) "metadata" false false ""
    ⟨[], []⟩ ⟨[], []⟩ ⟨[], []⟩
    [{ types := [none, some "string"], name := "metadataKey" }]
    [{ types := [some "repeated", none, some "string"], name := "metadataValue" }]
    rfl rfl).1
    { types := [none, some "string"], name := "metadataKey" }
    { types := [some "repeated", none, some "string"], name := "metadataValue" }
    rfl rfl

/-- C6 amended: the top-level compile accepts a schema root exactly when it
is itself an object kind: wrappers are not stripped at the root, so any
non-object root (including an Optional- or Nullable-wrapped object) raises
the Unsupported Type error naming the offending kind, with no output. -/
theorem zodToProtobuf_nonObject_root (schema : ZodT) (options : ZodToProtobufOptions)
    (h : ∀ fields, schema ≠ .zObject fields) :
    zodToProtobuf schema options = .error ("Unsupported type: " ++ constructorName schema) := by
  cases schema
  all_goals first
    | exact absurd rfl (h _)
    | simp [zodToProtobuf, traverseSchema, constructorName, exceptBind_error]

/-- Witness for C6 amended: a bare string root is rejected with the error
naming ZodString. -/
theorem zodToProtobuf_nonObject_root_witness :
    zodToProtobuf .zString {} = .error "Unsupported type: ZodString" :=
  zodToProtobuf_nonObject_root .zString {} (fun _ h => ZodT.noConfusion h)

/-- C4 amended: the root message is the last registry entry whenever no
nested registration already used the name typePrefix ++ rootMessageName;
when a nested message did take that name, the final Map.set overwrites that
earlier entry in place, keeping its earlier position, and the root is then
not last. -/
theorem finalMessages_root_last_without_collision (schema : ZodT)
    (options : ZodToProtobufOptions) (st : St) (fields : List String)
    (h : traverseSchema schema ⟨[], []⟩ options.typePre = .ok (st, fields))
    (hn : st.messages.any (fun e => e.1 = options.typePre ++ options.rootMessageName) = false) :
    finalMessages schema options =
      .ok (st.messages ++ [(options.typePre ++ options.rootMessageName, fields)]) ∧
    (st.messages ++ [(options.typePre ++ options.rootMessageName, fields)]).getLast? =
      some (options.typePre ++ options.rootMessageName, fields) := by
  constructor
  · simp only [finalMessages, h, exceptBind_ok]
    rw [mapSet_not_found st.messages _ fields hn]
  · simp

/-- Witness for C4 amended: on the name and age schema with default options
the root message Message is appended last to an otherwise empty registry. -/
theorem finalMessages_root_last_without_collision_witness :
    finalMessages (.zObject (.cons "name" .zString (.cons "age" (.zNumber true) .nil))) {} =
      .ok [("Message", ["string name = 1;", "int32 age = 2;"])] ∧
    ([] ++ [("Message", ["string name = 1;", "int32 age = 2;"])] :
        List (String × List String)).getLast? =
      some ("Message", ["string name = 1;", "int32 age = 2;"]) :=
  finalMessages_root_last_without_collision
    (.zObject (.cons "name" .zString (.cons "age" (.zNumber true) .nil))) {}
    ⟨[], []⟩ ["string name = 1;", "int32 age = 2;"] rfl rfl

/-- Every rendered tuple wrapper body line begins with the two literal
spaces baked in at registration time. -/
theorem renderTupleLines_two_spaces (fs : List ProtobufField) (n : Nat) :
    ∀ line ∈ renderTupleLines n fs, ∃ core, line = "  " ++ core := by
  induction fs generalizing n with
  | nil => intro line hline; simp [renderTupleLines] at hline
  | cons f rest ih =>
    intro line hline
    simp only [renderTupleLines, List.mem_cons] at hline
    rcases hline with h | h
    · refine ⟨joinAllTypes f ++ " " ++ f.name ++ " = " ++ toString n ++ ";", ?_⟩
      rw [h]
      simp only [String.append_assoc]
    · exact ih (n + 1) line h

/-- C7: with a non-empty type prefix, the tuple wrapper message is
registered under the plain PascalCase of the tuple's key, without the
prefix, and the emitted field references that unprefixed name; object and
enum fields register and reference the prefixed name. -/
theorem tuple_unprefixed_object_enum_prefixed
    (p : String) (hp : p ≠ "")
    (keyT : String) (items : ZItems) (oT iT : Bool) (stT stT' : St) (fsT : List ProtobufField)
    (hT : traverseKey keyT (.zTuple items) stT oT iT p = .ok (stT', fsT))
    (keyO : String) (fields : ZFields) (oO iO : Bool) (stO stO' : St) (fsO : List ProtobufField)
    (hO : traverseKey keyO (.zObject fields) stO oO iO p = .ok (stO', fsO))
    (keyE : String) (opts : List String) (oE iE : Bool) (stE : St) :
    (fsT = [{ types := [if oT && !iT then some "optional" else none, some (toPascalCase keyT)],
              name := keyT }] ∧
     ∃ body, regGet stT'.messages (toPascalCase keyT) = some body) ∧
    (fsO = [{ types := [if oO && !iO then some "optional" else none,
                        some (p ++ toPascalCase keyO)], name := keyO }] ∧
     ∃ body, regGet stO'.messages (p ++ toPascalCase keyO) = some body) ∧
    traverseKey keyE (.zEnum opts) stE oE iE p =
      .ok ({ stE with enums := (mapSet stE.enums (p ++ toPascalCase keyE)
              ["enum " ++ (p ++ toPascalCase keyE) ++ " \x7b\n" ++
                String.intercalate "\n" (enumLines 0 opts) ++ "\n\x7d"]) },
           [{ types := [if oE && !iE then some "optional" else none,
                        some (p ++ toPascalCase keyE)], name := keyE }]) := by
  refine ⟨?_, ?_, ?_⟩
  · simp only [traverseKey] at hT
    cases ht : traverseTupleItems keyT items 0 stT iT p with
    | error e => rw [ht] at hT; exact absurd hT (by simp [exceptBind_error])
    | ok r =>
      rw [ht] at hT
      simp only [exceptBind_ok] at hT
      have h2 := Except.ok.inj hT
      constructor
      · exact (congrArg Prod.snd h2).symm
      · have hst : stT' = { r.1 with
            messages := mapSet r.1.messages (toPascalCase keyT) (renderTupleLines 1 r.2) } :=
          (congrArg Prod.fst h2).symm
        rw [hst]
        exact ⟨renderTupleLines 1 r.2, regGet_mapSet _ _ _⟩
  · simp only [traverseKey, if_pos hp] at hO
    cases ht : traverseFields fields stO p with
    | error e => rw [ht] at hO; exact absurd hO (by simp [exceptBind_error])
    | ok r =>
      rw [ht] at hO
      simp only [exceptBind_ok] at hO
      have h2 := Except.ok.inj hO
      constructor
      · exact (congrArg Prod.snd h2).symm
      · have hst : stO' = { r.1 with
            messages := mapSet r.1.messages (p ++ toPascalCase keyO)
              (renderFieldLines 1 r.2) } :=
          (congrArg Prod.fst h2).symm
        rw [hst]
        exact ⟨renderFieldLines 1 r.2, regGet_mapSet _ _ _⟩
  · simp only [traverseKey, if_pos hp]

/-- Witness for C7 at concrete tuple, object and enum fields compiled with
the prefix Pre_. -/
theorem tuple_unprefixed_object_enum_prefixed_witness :
    (([{ types := [none, some "Pt"], name := "pt" }] : List ProtobufField) =
      [{ types := [if false && !false then some "optional" else none, some (toPascalCase "pt")],
         name := "pt" }] ∧
     ∃ body, regGet (⟨[("Pt", ["   string pt_0 = 1;"])], []⟩ : St).messages (toPascalCase "pt") =
       some body) ∧
    (([{ types := [none, some "Pre_Addr"], name := "addr" }] : List ProtobufField) =
      [{ types := [if false && !false then some "optional" else none,
                   some ("Pre_" ++ toPascalCase "addr")], name := "addr" }] ∧
     ∃ body, regGet (⟨[("Pre_Addr", [])], []⟩ : St).messages ("Pre_" ++ toPascalCase "addr") =
       some body) ∧
    traverseKey "status" (.zEnum ["A"]) ⟨[], []⟩ false false "Pre_" =
      .ok ({ (⟨[], []⟩ : St) with enums := (mapSet (⟨[], []⟩ : St).enums
              ("Pre_" ++ toPascalCase "status")
              ["enum " ++ ("Pre_" ++ toPascalCase "status") ++ " \x7b\n" ++
                String.intercalate "\n" (enumLines 0 ["A"]) ++ "\n\x7d"]) },
           [{ types := [if false && !false then some "optional" else none,
                        some ("Pre_" ++ toPascalCase "status")], name := "status" }]) := by
  exact tuple_unprefixed_object_enum_prefixed "Pre_" (by decide)
    "pt" (.cons .zString .nil) false false ⟨[], []⟩ ⟨[("Pt", ["   string pt_0 = 1;"])], []⟩
    [{ types := [none, some "Pt"], name := "pt" }] rfl
    "addr" .nil false false ⟨[], []⟩ ⟨[("Pre_Addr", [])], []⟩
    [{ types := [none, some "Pre_Addr"], name := "addr" }] rfl
    "status" ["A"] false false ⟨[], []⟩

/-- C8 amended: the emitter prepends exactly four spaces to every stored
body line, but tuple wrapper messages store each of their field lines with
two extra leading spaces already baked in (and one more space arises from
joining the null modifier slot), so tuple wrapper field lines appear with
at least six spaces of indentation rather than exactly four. -/
theorem tuple_body_lines_extra_indent (key : String) (items : ZItems) (o i : Bool)
    (p : String) (st st' : St) (fs : List ProtobufField)
    (h : traverseKey key (.zTuple items) st o i p = .ok (st', fs)) :
    (∀ nm body, renderMessage (nm, body) =
      "message " ++ nm ++ " \x7b\n" ++
        String.intercalate "\n" (body.map (fun f => "    " ++ f)) ++ "\n\x7d") ∧
    ∃ body, regGet st'.messages (toPascalCase key) = some body ∧
      ∀ line ∈ body, ∃ core, line = "  " ++ core := by
  constructor
  · intro nm body; rfl
  · simp only [traverseKey] at h
    cases ht : traverseTupleItems key items 0 st i p with
    | error e => rw [ht] at h; exact absurd h (by simp [exceptBind_error])
    | ok r =>
      rw [ht] at h
      simp only [exceptBind_ok] at h
      have h2 := Except.ok.inj h
      have hst : st' = { r.1 with
          messages := mapSet r.1.messages (toPascalCase key) (renderTupleLines 1 r.2) } :=
        (congrArg Prod.fst h2).symm
      rw [hst]
      exact ⟨renderTupleLines 1 r.2, regGet_mapSet _ _ _, renderTupleLines_two_spaces r.2 1⟩

/-- Witness for C8 amended at the concrete two-number tuple: the registered
body lines each start with two baked-in spaces. -/
theorem tuple_body_lines_extra_indent_witness :
    (∀ nm body, renderMessage (nm, body) =
      "message " ++ nm ++ " \x7b\n" ++
        String.intercalate "\n" (body.map (fun f => "    " ++ f)) ++ "\n\x7d") ∧
    ∃ body, regGet (⟨[("Coordinates",
        ["   double coordinates_0 = 1;", "   double coordinates_1 = 2;"])], []⟩ : St).messages
        (toPascalCase "coordinates") = some body ∧
      ∀ line ∈ body, ∃ core, line = "  " ++ core :=
  tuple_body_lines_extra_indent "coordinates"
    (.cons (.zNumber false) (.cons (.zNumber false) .nil)) false false ""
    ⟨[], []⟩ ⟨[("Coordinates", ["   double coordinates_0 = 1;", "   double coordinates_1 = 2;"])], []⟩
    [{ types := [none, some "Coordinates"], name := "coordinates" }] rfl

/-- Shape of every successfully compiled field descriptor: exactly one
descriptor comes back; its types list is one repeated token per Array/Set
layer on the spine, followed either by the single map type string (when the
spine ends in a Map) or by the optional slot and one type name. -/
theorem traverseKey_descriptor_shape (value : ZodT) (key : String) (st : St) (o i : Bool)
    (p : String) (st' : St) (fs : List ProtobufField)
    (h : traverseKey key value st o i p = .ok (st', fs)) :
    ∃ f, fs = [f] ∧
      ((isMapKind (spineBase value) = true ∧ ∃ kf vf,
          f.types = List.replicate (spineRep value) (some "repeated") ++
            [some (mapTypeString kf vf)]) ∨
       (isMapKind (spineBase value) = false ∧ ∃ t,
          f.types = List.replicate (spineRep value) (some "repeated") ++
            [optSlot value o i, some t])) := by
  cases value with
  | zOptional inner =>
    obtain ⟨f, hfs, hdisj⟩ :=
      traverseKey_descriptor_shape inner key st true i p st' fs h
    refine ⟨f, hfs, ?_⟩
    rcases hdisj with ⟨hm, kf, vf, ht⟩ | ⟨hm, t, ht⟩
    · exact Or.inl ⟨by simpa [spineBase] using hm, kf, vf, by simpa [spineRep] using ht⟩
    · refine Or.inr ⟨by simpa [spineBase] using hm, t, ?_⟩
      rw [ht]
      simp [optSlot, wrapped, spineRep]
  | zNullable inner =>
    obtain ⟨f, hfs, hdisj⟩ :=
      traverseKey_descriptor_shape inner key st true i p st' fs h
    refine ⟨f, hfs, ?_⟩
    rcases hdisj with ⟨hm, kf, vf, ht⟩ | ⟨hm, t, ht⟩
    · exact Or.inl ⟨by simpa [spineBase] using hm, kf, vf, by simpa [spineRep] using ht⟩
    · refine Or.inr ⟨by simpa [spineBase] using hm, t, ?_⟩
      rw [ht]
      simp [optSlot, wrapped, spineRep]
  | zArray element =>
    simp only [traverseKey] at h
    cases he : traverseKey (singularize key) element st false true p with
    | error e => rw [he] at h; exact absurd h (by simp [exceptBind_error])
    | ok r =>
      rw [he] at h
      simp only [exceptBind_ok] at h
      have hfs : fs = r.2.map (fun f =>
          { f with types := some "repeated" :: f.types,
                   name := replaceFirst f.name (singularize key) key }) :=
        (congrArg Prod.snd (Except.ok.inj h)).symm
      obtain ⟨ef, hef, hdisj⟩ :=
        traverseKey_descriptor_shape element (singularize key) st false true p r.1 r.2
          (by rw [he])
      rw [hef] at hfs
      refine ⟨_, by simpa using hfs, ?_⟩
      rcases hdisj with ⟨hm, kf, vf, ht⟩ | ⟨hm, t, ht⟩
      · refine Or.inl ⟨by simpa [spineBase] using hm, kf, vf, ?_⟩
        rw [ht]
        simp [spineRep, Nat.add_comm, List.replicate_succ]
      · refine Or.inr ⟨by simpa [spineBase] using hm, t, ?_⟩
        rw [ht]
        have hin : optSlot element false true = none := by
          simp [optSlot]
        have hout : optSlot (.zArray element) o i = none := by
          simp only [optSlot, spineRep]
          have : ((1 + spineRep element : Nat) == 0) = false :=
            beq_eq_false_iff_ne.mpr (by omega)
          simp [this]
        rw [hin, hout]
        simp [spineRep, Nat.add_comm, List.replicate_succ]
  | zSet element =>
    simp only [traverseKey] at h
    cases he : traverseKey (singularize key) element st false true p with
    | error e => rw [he] at h; exact absurd h (by simp [exceptBind_error])
    | ok r =>
      rw [he] at h
      simp only [exceptBind_ok] at h
      have hfs : fs = r.2.map (fun f =>
          { f with types := some "repeated" :: f.types,
                   name := replaceFirst f.name (singularize key) key }) :=
        (congrArg Prod.snd (Except.ok.inj h)).symm
      obtain ⟨ef, hef, hdisj⟩ :=
        traverseKey_descriptor_shape element (singularize key) st false true p r.1 r.2
          (by rw [he])
      rw [hef] at hfs
      refine ⟨_, by simpa using hfs, ?_⟩
      rcases hdisj with ⟨hm, kf, vf, ht⟩ | ⟨hm, t, ht⟩
      · refine Or.inl ⟨by simpa [spineBase] using hm, kf, vf, ?_⟩
        rw [ht]
        simp [spineRep, Nat.add_comm, List.replicate_succ]
      · refine Or.inr ⟨by simpa [spineBase] using hm, t, ?_⟩
        rw [ht]
        have hin : optSlot element false true = none := by
          simp [optSlot]
        have hout : optSlot (.zSet element) o i = none := by
          simp only [optSlot, spineRep]
          have : ((1 + spineRep element : Nat) == 0) = false :=
            beq_eq_false_iff_ne.mpr (by omega)
          simp [this]
        rw [hin, hout]
        simp [spineRep, Nat.add_comm, List.replicate_succ]
  | zMap keyType valueType =>
    simp only [traverseKey] at h
    cases hk : traverseKey (key ++ "Key") keyType st false true p with
    | error e => rw [hk] at h; exact absurd h (by simp [exceptBind_error])
    | ok r =>
      rw [hk] at h
      simp only [exceptBind_ok] at h
      cases hv : traverseKey (key ++ "Value") valueType r.1 false true p with
      | error e => rw [hv] at h; exact absurd h (by simp [exceptBind_error])
      | ok r2 =>
        rw [hv] at h
        simp only [exceptBind_ok] at h
        match hkf : r.2, hvf : r2.2 with
        | [kf], [vf] =>
          rw [hkf, hvf] at h
          refine ⟨_, (congrArg Prod.snd (Except.ok.inj h)).symm, ?_⟩
          exact Or.inl ⟨rfl, kf, vf, by simp [spineRep, spineBase]⟩
        | [], _ => rw [hkf] at h; simp at h
        | x :: y :: rest, _ => rw [hkf] at h; simp at h
        | [kf], [] => rw [hkf, hvf] at h; simp at h
        | [kf], x :: y :: rest => rw [hkf, hvf] at h; simp at h
  | zObject fields =>
    simp only [traverseKey] at h
    cases ht : traverseFields fields st p with
    | error e => rw [ht] at h; exact absurd h (by simp [exceptBind_error])
    | ok r =>
      rw [ht] at h
      simp only [exceptBind_ok] at h
      refine ⟨_, (congrArg Prod.snd (Except.ok.inj h)).symm, ?_⟩
      refine Or.inr ⟨rfl, (if p ≠ "" then p ++ toPascalCase key else toPascalCase key), ?_⟩
      simp [optSlot, wrapped, spineRep]
  | zTuple items =>
    simp only [traverseKey] at h
    cases ht : traverseTupleItems key items 0 st i p with
    | error e => rw [ht] at h; exact absurd h (by simp [exceptBind_error])
    | ok r =>
      rw [ht] at h
      simp only [exceptBind_ok] at h
      refine ⟨_, (congrArg Prod.snd (Except.ok.inj h)).symm, ?_⟩
      refine Or.inr ⟨rfl, toPascalCase key, ?_⟩
      simp [optSlot, wrapped, spineRep]
  | zString =>
    simp only [traverseKey] at h
    refine ⟨_, (congrArg Prod.snd (Except.ok.inj h)).symm, ?_⟩
    refine Or.inr ⟨rfl, "string", ?_⟩
    simp [optSlot, wrapped, spineRep]
  | zBoolean =>
    simp only [traverseKey] at h
    refine ⟨_, (congrArg Prod.snd (Except.ok.inj h)).symm, ?_⟩
    refine Or.inr ⟨rfl, "bool", ?_⟩
    simp [optSlot, wrapped, spineRep]
  | zDate =>
    simp only [traverseKey] at h
    refine ⟨_, (congrArg Prod.snd (Except.ok.inj h)).symm, ?_⟩
    refine Or.inr ⟨rfl, "string", ?_⟩
    simp [optSlot, wrapped, spineRep]
  | zBigInt =>
    simp only [traverseKey] at h
    refine ⟨_, (congrArg Prod.snd (Except.ok.inj h)).symm, ?_⟩
    refine Or.inr ⟨rfl, "int64", ?_⟩
    simp [optSlot, wrapped, spineRep]
  | zNumber isInt =>
    simp only [traverseKey] at h
    refine ⟨_, (congrArg Prod.snd (Except.ok.inj h)).symm, ?_⟩
    refine Or.inr ⟨rfl, getNumberTypeName isInt, ?_⟩
    simp [optSlot, wrapped, spineRep]
  | zEnum options =>
    simp only [traverseKey] at h
    refine ⟨_, (congrArg Prod.snd (Except.ok.inj h)).symm, ?_⟩
    refine Or.inr ⟨rfl, (if p ≠ "" then p ++ toPascalCase key else toPascalCase key), ?_⟩
    simp [optSlot, wrapped, spineRep]
  | zUnknown nm =>
    simp only [traverseKey] at h
    exact absurd h (by simp)
termination_by sizeOf value

/-- C3 amended: a compiled field descriptor carries the optional modifier
slot exactly when its node was wrapped in Optional/Nullable (or compiled
with the optional flag), it is not a direct array/set element, and the
wrapper-stripped node is not itself an Array, Set or Map (those silently
drop optionality); and it carries exactly one repeated modifier per
enclosing Array/Set layer, stacked in front. -/
theorem traverseKey_optional_repeated_modifiers (value : ZodT) (key : String) (st : St)
    (o i : Bool) (p : String) (st' : St) (fs : List ProtobufField)
    (h : traverseKey key value st o i p = .ok (st', fs)) :
    ∃ f, fs = [f] ∧
      ((isMapKind (spineBase value) = true ∧ ∃ kf vf,
          f.types = List.replicate (spineRep value) (some "repeated") ++
            [some (mapTypeString kf vf)]) ∨
       (isMapKind (spineBase value) = false ∧ ∃ t,
          f.types = List.replicate (spineRep value) (some "repeated") ++
            [optSlot value o i, some t])) :=
  traverseKey_descriptor_shape value key st o i p st' fs h

/-- Witness for C3 amended at the Optional-of-Array-of-String field tags:
one descriptor, one repeated token, and an optional slot that optSlot
evaluates to none because the spine holds an Array layer. -/
theorem traverseKey_optional_repeated_modifiers_witness :
    ∃ f, ([{ types := [some "repeated", none, some "string"], name := "tags" }] :
        List ProtobufField) = [f] ∧
      ((isMapKind (spineBase (.zOptional (.zArray .zString))) = true ∧ ∃ kf vf,
          f.types = List.replicate (spineRep (.zOptional (.zArray .zString))) (some "repeated") ++
            [some (mapTypeString kf vf)]) ∨
       (isMapKind (spineBase (.zOptional (.zArray .zString))) = false ∧ ∃ t,
          f.types = List.replicate (spineRep (.zOptional (.zArray .zString))) (some "repeated") ++
            [optSlot (.zOptional (.zArray .zString)) false false, some t])) :=
  traverseKey_optional_repeated_modifiers (.zOptional (.zArray .zString)) "tags" ⟨[], []⟩
    false false "" ⟨[], []⟩
    [{ types := [some "repeated", none, some "string"], name := "tags" }] rfl

/-- Lines rendered by renderFieldLines carry the running counter: the i-th
line ends in the number n + i. -/
theorem renderFieldLines_numbered_aux (fs : List ProtobufField) (n i : Nat)
    (h : i < (renderFieldLines n fs).length) :
    ∃ pre, (renderFieldLines n fs).get ⟨i, h⟩ = pre ++ " = " ++ toString (n + i) ++ ";" := by
  induction fs generalizing n i with
  | nil => simp [renderFieldLines] at h
  | cons f rest ih =>
    cases i with
    | zero =>
      exact ⟨protobufFieldToType f ++ " " ++ f.name, by simp [renderFieldLines]⟩
    | succ j =>
      have h' : j < (renderFieldLines (n + 1) rest).length := by
        simpa [renderFieldLines] using h
      obtain ⟨pre, hp⟩ := ih (n + 1) j h'
      refine ⟨pre, ?_⟩
      have harith : n + 1 + j = n + (j + 1) := by omega
      simpa [renderFieldLines, harith] using hp

/-- Lines rendered by renderTupleLines carry the running counter likewise. -/
theorem renderTupleLines_numbered_aux (fs : List ProtobufField) (n i : Nat)
    (h : i < (renderTupleLines n fs).length) :
    ∃ pre, (renderTupleLines n fs).get ⟨i, h⟩ = pre ++ " = " ++ toString (n + i) ++ ";" := by
  induction fs generalizing n i with
  | nil => simp [renderTupleLines] at h
  | cons f rest ih =>
    cases i with
    | zero =>
      exact ⟨"  " ++ joinAllTypes f ++ " " ++ f.name, by simp [renderTupleLines]⟩
    | succ j =>
      have h' : j < (renderTupleLines (n + 1) rest).length := by
        simpa [renderTupleLines] using h
      obtain ⟨pre, hp⟩ := ih (n + 1) j h'
      refine ⟨pre, ?_⟩
      have harith : n + 1 + j = n + (j + 1) := by omega
      simpa [renderTupleLines, harith] using hp

/-- A body produced by renderFieldLines starting at 1 is numbered 1, 2, ... -/
theorem renderFieldLines_numberedBody (fs : List ProtobufField) :
    NumberedBody (renderFieldLines 1 fs) := by
  intro i h
  obtain ⟨pre, hp⟩ := renderFieldLines_numbered_aux fs 1 i h
  exact ⟨pre, by rw [hp, Nat.add_comm]⟩

/-- A body produced by renderTupleLines starting at 1 is numbered 1, 2, ... -/
theorem renderTupleLines_numberedBody (fs : List ProtobufField) :
    NumberedBody (renderTupleLines 1 fs) := by
  intro i h
  obtain ⟨pre, hp⟩ := renderTupleLines_numbered_aux fs 1 i h
  exact ⟨pre, by rw [hp, Nat.add_comm]⟩

mutual
/-- Traversal of a single key preserves the invariant that every registered
message body is numbered 1, 2, ... locally. -/
theorem traverseKey_numbered (key : String) (value : ZodT) (st : St) (o i : Bool)
    (p : String) (st' : St) (fs : List ProtobufField)
    (h : traverseKey key value st o i p = .ok (st', fs))
    (hst : NumberedMessages st) : NumberedMessages st' := by
  cases value with
  | zOptional inner => exact traverseKey_numbered key inner st true i p st' fs h hst
  | zNullable inner => exact traverseKey_numbered key inner st true i p st' fs h hst
  | zArray element =>
    simp only [traverseKey] at h
    cases he : traverseKey (singularize key) element st false true p with
    | error e => rw [he] at h; exact absurd h (by simp [exceptBind_error])
    | ok r =>
      rw [he] at h
      simp only [exceptBind_ok] at h
      have hst' : st' = r.1 := (congrArg Prod.fst (Except.ok.inj h)).symm
      rw [hst']
      exact traverseKey_numbered (singularize key) element st false true p r.1 r.2
        (by rw [he]) hst
  | zSet element =>
    simp only [traverseKey] at h
    cases he : traverseKey (singularize key) element st false true p with
    | error e => rw [he] at h; exact absurd h (by simp [exceptBind_error])
    | ok r =>
      rw [he] at h
      simp only [exceptBind_ok] at h
      have hst' : st' = r.1 := (congrArg Prod.fst (Except.ok.inj h)).symm
      rw [hst']
      exact traverseKey_numbered (singularize key) element st false true p r.1 r.2
        (by rw [he]) hst
  | zMap keyType valueType =>
    simp only [traverseKey] at h
    cases hk : traverseKey (key ++ "Key") keyType st false true p with
    | error e => rw [hk] at h; exact absurd h (by simp [exceptBind_error])
    | ok r =>
      rw [hk] at h
      simp only [exceptBind_ok] at h
      cases hv : traverseKey (key ++ "Value") valueType r.1 false true p with
      | error e => rw [hv] at h; exact absurd h (by simp [exceptBind_error])
      | ok r2 =>
        rw [hv] at h
        simp only [exceptBind_ok] at h
        have hr : NumberedMessages r.1 :=
          traverseKey_numbered (key ++ "Key") keyType st false true p r.1 r.2 (by rw [hk]) hst
        have hr2 : NumberedMessages r2.1 :=
          traverseKey_numbered (key ++ "Value") valueType r.1 false true p r2.1 r2.2
            (by rw [hv]) hr
        match hkf : r.2, hvf : r2.2 with
        | [kf], [vf] =>
          rw [hkf, hvf] at h
          have hst' : st' = r2.1 := (congrArg Prod.fst (Except.ok.inj h)).symm
          rw [hst']
          exact hr2
        | [], _ => rw [hkf] at h; simp at h
        | x :: y :: rest, _ => rw [hkf] at h; simp at h
        | [kf], [] => rw [hkf, hvf] at h; simp at h
        | [kf], x :: y :: rest => rw [hkf, hvf] at h; simp at h
  | zObject fields =>
    simp only [traverseKey] at h
    cases ht : traverseFields fields st p with
    | error e => rw [ht] at h; exact absurd h (by simp [exceptBind_error])
    | ok r =>
      rw [ht] at h
      simp only [exceptBind_ok] at h
      have hr : NumberedMessages r.1 :=
        traverseFields_numbered fields st p r.1 r.2 (by rw [ht]) hst
      have hst' : st' = { r.1 with
          messages := mapSet r.1.messages
            (if p ≠ "" then p ++ toPascalCase key else toPascalCase key)
            (renderFieldLines 1 r.2) } :=
        (congrArg Prod.fst (Except.ok.inj h)).symm
      rw [hst']
      intro e he
      rcases mem_mapSet _ _ _ e he with h1 | h2
      · exact hr e h1
      · rw [h2]
        exact renderFieldLines_numberedBody r.2
  | zTuple items =>
    simp only [traverseKey] at h
    cases ht : traverseTupleItems key items 0 st i p with
    | error e => rw [ht] at h; exact absurd h (by simp [exceptBind_error])
    | ok r =>
      rw [ht] at h
      simp only [exceptBind_ok] at h
      have hr : NumberedMessages r.1 :=
        traverseTupleItems_numbered key items 0 st i p r.1 r.2 (by rw [ht]) hst
      have hst' : st' = { r.1 with
          messages := mapSet r.1.messages (toPascalCase key) (renderTupleLines 1 r.2) } :=
        (congrArg Prod.fst (Except.ok.inj h)).symm
      rw [hst']
      intro e he
      rcases mem_mapSet _ _ _ e he with h1 | h2
      · exact hr e h1
      · rw [h2]
        exact renderTupleLines_numberedBody r.2
  | zString =>
    simp only [traverseKey] at h
    have hst' : st' = st := (congrArg Prod.fst (Except.ok.inj h)).symm
    rw [hst']; exact hst
  | zBoolean =>
    simp only [traverseKey] at h
    have hst' : st' = st := (congrArg Prod.fst (Except.ok.inj h)).symm
    rw [hst']; exact hst
  | zDate =>
    simp only [traverseKey] at h
    have hst' : st' = st := (congrArg Prod.fst (Except.ok.inj h)).symm
    rw [hst']; exact hst
  | zBigInt =>
    simp only [traverseKey] at h
    have hst' : st' = st := (congrArg Prod.fst (Except.ok.inj h)).symm
    rw [hst']; exact hst
  | zNumber isInt =>
    simp only [traverseKey] at h
    have hst' : st' = st := (congrArg Prod.fst (Except.ok.inj h)).symm
    rw [hst']; exact hst
  | zEnum options =>
    simp only [traverseKey] at h
    have hst' : st' = { st with
        enums := mapSet st.enums (if p ≠ "" then p ++ toPascalCase key else toPascalCase key)
          ["enum " ++ (if p ≠ "" then p ++ toPascalCase key else toPascalCase key) ++
            " \x7b\n" ++ String.intercalate "\n" (enumLines 0 options) ++ "\n\x7d"] } :=
      (congrArg Prod.fst (Except.ok.inj h)).symm
    rw [hst']
    intro e he
    exact hst e he
  | zUnknown nm =>
    simp only [traverseKey] at h
    exact absurd h (by simp)
termination_by sizeOf value

/-- Traversal of an object's members preserves the numbering invariant. -/
theorem traverseFields_numbered (fields : ZFields) (st : St) (p : String) (st' : St)
    (fs : List ProtobufField) (h : traverseFields fields st p = .ok (st', fs))
    (hst : NumberedMessages st) : NumberedMessages st' := by
  cases fields with
  | nil =>
    simp only [traverseFields] at h
    have hst' : st' = st := (congrArg Prod.fst (Except.ok.inj h)).symm
    rw [hst']; exact hst
  | cons k v rest =>
    simp only [traverseFields] at h
    cases hk : traverseKey k v st false false p with
    | error e => rw [hk] at h; exact absurd h (by simp [exceptBind_error])
    | ok r =>
      rw [hk] at h
      simp only [exceptBind_ok] at h
      cases hr : traverseFields rest r.1 p with
      | error e => rw [hr] at h; exact absurd h (by simp [exceptBind_error])
      | ok r2 =>
        rw [hr] at h
        simp only [exceptBind_ok] at h
        have h1 : NumberedMessages r.1 :=
          traverseKey_numbered k v st false false p r.1 r.2 (by rw [hk]) hst
        have h2 : NumberedMessages r2.1 :=
          traverseFields_numbered rest r.1 p r2.1 r2.2 (by rw [hr]) h1
        have hst' : st' = r2.1 := (congrArg Prod.fst (Except.ok.inj h)).symm
        rw [hst']; exact h2
termination_by sizeOf fields

/-- Traversal of tuple items preserves the numbering invariant. -/
theorem traverseTupleItems_numbered (key : String) (items : ZItems) (idx : Nat) (st : St)
    (i : Bool) (p : String) (st' : St) (fs : List ProtobufField)
    (h : traverseTupleItems key items idx st i p = .ok (st', fs))
    (hst : NumberedMessages st) : NumberedMessages st' := by
  cases items with
  | nil =>
    simp only [traverseTupleItems] at h
    have hst' : st' = st := (congrArg Prod.fst (Except.ok.inj h)).symm
    rw [hst']; exact hst
  | cons item rest =>
    simp only [traverseTupleItems] at h
    cases hk : traverseKey (key ++ "_" ++ toString idx) item st false i p with
    | error e => rw [hk] at h; exact absurd h (by simp [exceptBind_error])
    | ok r =>
      rw [hk] at h
      simp only [exceptBind_ok] at h
      cases hr : traverseTupleItems key rest (idx + 1) r.1 i p with
      | error e => rw [hr] at h; exact absurd h (by simp [exceptBind_error])
      | ok r2 =>
        rw [hr] at h
        simp only [exceptBind_ok] at h
        have h1 : NumberedMessages r.1 :=
          traverseKey_numbered (key ++ "_" ++ toString idx) item st false i p r.1 r.2
            (by rw [hk]) hst
        have h2 : NumberedMessages r2.1 :=
          traverseTupleItems_numbered key rest (idx + 1) r.1 i p r2.1 r2.2 (by rw [hr]) h1
        have hst' : st' = r2.1 := (congrArg Prod.fst (Except.ok.inj h)).symm
        rw [hst']; exact h2
termination_by sizeOf items
end

/-- C2: in a successful compile, every message body in the final registry
(root, nested object messages and tuple wrapper messages alike) has its
field lines numbered exactly 1, 2, 3, ... in production order, restarting
at 1 for each message scope. -/
theorem finalMessages_bodies_numbered (schema : ZodT) (options : ZodToProtobufOptions)
    (ms : List (String × List String)) (h : finalMessages schema options = .ok ms) :
    ∀ e ∈ ms, NumberedBody e.2 := by
  unfold finalMessages at h
  cases hs : traverseSchema schema ⟨[], []⟩ options.typePre with
  | error err => rw [hs] at h; exact absurd h (by simp [exceptBind_error])
  | ok r =>
    rw [hs] at h
    simp only [exceptBind_ok] at h
    have hms : ms = mapSet r.1.messages (options.typePre ++ options.rootMessageName) r.2 :=
      (Except.ok.inj h).symm
    cases schema
    case zObject fields =>
      simp only [traverseSchema] at hs
      cases ht : traverseFields fields ⟨[], []⟩ options.typePre with
      | error err => rw [ht] at hs; exact absurd hs (by simp [exceptBind_error])
      | ok r0 =>
        rw [ht] at hs
        simp only [exceptBind_ok] at hs
        have hr : r = (r0.1, renderFieldLines 1 r0.2) := (Except.ok.inj hs).symm
        have hempty : NumberedMessages (⟨[], []⟩ : St) := by
          intro en hen
          exact absurd hen (List.not_mem_nil en)
        have hnum : NumberedMessages r0.1 :=
          traverseFields_numbered fields ⟨[], []⟩ options.typePre r0.1 r0.2 (by rw [ht]) hempty
        intro en hen
        rw [hms, hr] at hen
        rcases mem_mapSet _ _ _ en hen with h1 | h2
        · exact hnum en h1
        · rw [h2]
          exact renderFieldLines_numberedBody r0.2
    all_goals
      simp only [traverseSchema] at hs
      exact absurd hs (by simp)

/-- Witness for C2 at the one-field schema: the sole registered body is
numbered from 1. -/
theorem finalMessages_bodies_numbered_witness :
    finalMessages (.zObject (.cons "name" .zString .nil)) {} =
      .ok [("Message", ["string name = 1;"])] ∧
    NumberedBody ["string name = 1;"] :=
  ⟨rfl, finalMessages_bodies_numbered (.zObject (.cons "name" .zString .nil)) {}
    [("Message", ["string name = 1;"])] rfl ("Message", ["string name = 1;"]) (by simp)⟩
